import Mathlib

/-!
# Verification of the FnordMetric HTTP connection engine and document keys

Shallow embedding of `src/libfnord/net/http/httpconnection.cc` and
`src/fnordmetric-core/src/ffs/documentkey.cc`.

The connection engine is modelled as pure state-transition functions over an
explicit connection state, each returning the trace of primitive calls
(transport operations, parser operations, callback invocations, reference
count operations) that the corresponding C++ member function performs.
Bytes are modelled as `Nat`, buffers as lists of bytes with an explicit
consumption mark.
-/

set_option autoImplicit false

namespace FnordHttp

/-- The ordered states of `HTTPParser`:
`S_METHOD → S_URI → S_VERSION → S_HEADER → S_BODY → S_DONE`. -/
inductive ParserState where
  | s_method
  | s_uri
  | s_version
  | s_header
  | s_body
  | s_done
deriving DecidableEq, Repr

/-- Numeric index of a parser state, reflecting the C++ enum ordering used by
comparisons such as `parser_.state() < HTTPParser::S_BODY`. -/
def ParserState.idx : ParserState → Nat
  | .s_method => 0
  | .s_uri => 1
  | .s_version => 2
  | .s_header => 3
  | .s_body => 4
  | .s_done => 5

/-- Primitive calls a connection member function can perform, in program
order.  `logDebug` is `logException(kDebug, ...)`, `logTrace` is
`logf(kTrace, ...)`. -/
inductive Call where
  | transportRead
  | transportWriteAttempt (size : Nat)
  | transportClose
  | parserEof
  | parserParse (len : Nat)
  | parserReset
  | newRequest
  | setMarkOp (pos : Nat)
  | clearBuf
  | invokeReadCb
  | invokeWriteCb
  | invokeBodyCb
  | incRefOp
  | decRefOp
  | awaitReadOp
  | awaitWriteOp
  | logDebug
  | logTrace
deriving DecidableEq, Repr

/-- The write buffer `buf_`: byte contents plus the consumption mark.
`size` of the C++ buffer is `data.length`. -/
structure WBuf where
  data : List Nat
  mark : Nat
deriving DecidableEq, Repr

/-- `HTTPConnection::close()` (httpconnection.cc:246-253): log, close the
transport, one `decRef`. -/
def closeCalls : List Call := [.logTrace, .transportClose, .decRefOp]

/-- `HTTPConnection::awaitRead()` (httpconnection.cc:153-159): `incRef`, then
register `read` with the scheduler. -/
def awaitReadCalls : List Call := [.incRefOp, .awaitReadOp]

/-- `HTTPConnection::awaitWrite()` (httpconnection.cc:161-167): `incRef`, then
register `write` with the scheduler. -/
def awaitWriteCalls : List Call := [.incRefOp, .awaitWriteOp]

/-- Result of one invocation of `HTTPConnection::write()`: the write buffer
afterwards, the bytes handed to the transport this call, and the trace of
primitive calls performed. -/
structure WriteRes where
  buf : WBuf
  sent : List Nat
  calls : List Call
deriving DecidableEq, Repr

/-- `HTTPConnection::write()` (httpconnection.cc:120-151).  The transport
result is `.error ()` when `conn_->write` throws, `.ok len` when it accepts
`len` bytes of the offered region `[mark, size)`.  `cbSet` says whether
`on_write_completed_cb_` is non-null.
* transport error: log, `close()`, return;
* `mark + len < size`: `setMark (mark + len)`, `awaitWrite()`;
* otherwise: `buf_.clear()`, invoke the write-completion callback if set;
* then one final `decRef`. -/
def write (buf : WBuf) (tres : Except Unit Nat) (cbSet : Bool) : WriteRes :=
  match tres with
  | .error _ =>
      ⟨buf, [], [.transportWriteAttempt (buf.data.length - buf.mark), .logDebug] ++ closeCalls⟩
  | .ok len =>
      let sent := (buf.data.drop buf.mark).take len
      if buf.mark + len < buf.data.length then
        ⟨⟨buf.data, buf.mark + len⟩, sent,
          [.transportWriteAttempt (buf.data.length - buf.mark),
            .setMarkOp (buf.mark + len)] ++ awaitWriteCalls ++ [.decRefOp]⟩
      else
        ⟨⟨[], 0⟩, sent,
          [.transportWriteAttempt (buf.data.length - buf.mark), .clearBuf] ++
            (if cbSet then [.invokeWriteCb] else []) ++ [.decRefOp]⟩

/-- Driving the `write`/`awaitWrite` loop: each element of `lens` is the byte
count the transport accepts on the corresponding scheduled `write()` call.
Returns the transmitted chunks, whether the flush completed (full write
reached, write-completion callback fired), and the final buffer. -/
def flush : WBuf → List Nat → List (List Nat) × Bool × WBuf
  | buf, [] => ([], false, buf)
  | buf, len :: rest =>
      let r := write buf (.ok len) true
      if buf.mark + len < buf.data.length then
        let f := flush r.buf rest
        (r.sent :: f.1, f.2.1, f.2.2)
      else
        ([r.sent], true, r.buf)

/-- All primitive calls performed across the `write` loop driven by `lens`. -/
def flushCalls : WBuf → List Nat → List Call
  | _, [] => []
  | buf, len :: rest =>
      let r := write buf (.ok len) true
      if buf.mark + len < buf.data.length then
        r.calls ++ flushCalls r.buf rest
      else
        r.calls

/-- The buffer marks observed before each `write()` call of the flush loop,
plus the final mark. -/
def flushMarks : WBuf → List Nat → List Nat
  | buf, [] => [buf.mark]
  | buf, len :: rest =>
      if buf.mark + len < buf.data.length then
        buf.mark :: flushMarks ⟨buf.data, buf.mark + len⟩ rest
      else
        [buf.mark, 0]

/-- Validity of an accepted-length sequence for a buffer of total size `size`
starting at mark `mark`: every accepted count satisfies
`0 < len ∧ len ≤ remaining`, and once a write completes the buffer no further
write is scheduled (the remaining sequence is empty). -/
def okLens (size : Nat) : Nat → List Nat → Bool
  | _, [] => true
  | mark, len :: rest =>
      decide (0 < len) && decide (mark + len ≤ size) &&
        (if mark + len < size then okLens size (mark + len) rest else rest.isEmpty)

/-- `HTTPConnection::read()` (httpconnection.cc:79-118), as the trace of
primitive calls it performs.  `readRes` is `.error ()` when `conn_->read`
throws and `.ok len` when it returns `len` bytes; `parseRaises` says whether
`parser_.parse` throws on those bytes; `cbSet` says whether
`on_read_completed_cb_` is non-null.
* transport error: log, `close()`, return;
* `len = 0`: `parser_.eof()`, `close()`, return;
* parse error: log, `close()`, return;
* otherwise invoke the read-completion callback if set, then one `decRef`. -/
def read (readRes : Except Unit Nat) (parseRaises : Bool) (cbSet : Bool) : List Call :=
  match readRes with
  | .error _ => [.transportRead, .logDebug] ++ closeCalls
  | .ok len =>
      if len = 0 then
        [.transportRead, .parserEof] ++ closeCalls
      else if parseRaises then
        [.transportRead, .parserParse len, .logDebug] ++ closeCalls
      else
        [.transportRead, .parserParse len] ++
          (if cbSet then [.invokeReadCb] else []) ++ [.decRefOp]

/-- Which function is installed as `on_read_completed_cb_`. -/
inductive ReadCbKind where
  | noCb
  | defaultHeader
  | bodyStream
deriving DecidableEq, Repr

/-- Which function is installed as `on_write_completed_cb_`. -/
inductive WriteCbKind where
  | noCb
  | readyCb
deriving DecidableEq, Repr

/-- The fields of `HTTPRequest` the connection engine reads:
the keep-alive flag derived from version/headers. -/
structure HTTPRequest where
  keepalive : Bool
deriving DecidableEq, Repr

/-- Modelled from the spec: `new HTTPRequest()` in `nextRequest` allocates a
fresh request object (the `HTTPRequest` class itself is not under src/); a
default-constructed request has no keep-alive negotiated yet. -/
def HTTPRequest.fresh : HTTPRequest := ⟨false⟩

/-- An `HTTPResponse` as the connection engine consumes it: its serialized
wire form (status line + headers + body), produced by `HTTPGenerator`. -/
structure HTTPResponse where
  wire : List Nat
deriving DecidableEq, Repr

/-- The connection-engine state the modelled member functions touch:
parser state, current request, write buffer `buf_`, body buffer `body_buf_`,
and the two completion-callback slots. -/
structure Conn where
  parserState : ParserState
  request : HTTPRequest
  buf : WBuf
  bodyBuf : List Nat
  onReadCb : ReadCbKind
  onWriteCb : WriteCbKind
deriving DecidableEq, Repr

/-- The default header-phase read-completion callback installed by
`nextRequest` (httpconnection.cc:174-178): re-arm `awaitRead()` exactly when
`parser_.state() < HTTPParser::S_BODY`. -/
def defaultReadCb (ps : ParserState) : List Call :=
  if ps.idx < ParserState.s_body.idx then awaitReadCalls else []

/-- `HTTPConnection::nextRequest()` (httpconnection.cc:169-181): reset the
parser, allocate a fresh request, null the write-completion callback, install
the default header-phase read-completion callback, then `awaitRead()`. -/
def nextRequest (c : Conn) : Conn × List Call :=
  (⟨.s_method, HTTPRequest.fresh, c.buf, c.bodyBuf, .defaultHeader, .noCb⟩,
    [.parserReset, .newRequest] ++ awaitReadCalls)

/-- `HTTPConnection::close()` (httpconnection.cc:246-253) as a state
transition: the modelled fields are untouched; the transport is closed and one
`decRef` performed. -/
def close (c : Conn) : Conn × List Call := (c, closeCalls)

/-- `HTTPConnection::finishResponse()` (httpconnection.cc:238-244):
`nextRequest()` if `cur_request_->keepalive()`, else `close()`. -/
def finishResponse (c : Conn) : Conn × List Call :=
  if c.request.keepalive then nextRequest c else close c

/-- `HTTPConnection::writeResponse(resp, ready_callback)`
(httpconnection.cc:222-230): clear the write buffer, serialize the response
into it, store the ready callback as the write-completion callback,
`awaitWrite()`. -/
def writeResponse (c : Conn) (resp : HTTPResponse) : Conn × List Call :=
  ({ c with buf := ⟨resp.wire, 0⟩, onWriteCb := .readyCb },
    [.clearBuf] ++ awaitWriteCalls)

/-- `HTTPConnection::writeResponseBody(data, size, ready_callback)`
(httpconnection.cc:232-236): the function body is empty — no state change, no
calls. -/
def writeResponseBody (c : Conn) (chunk : List Nat) : Conn × List Call :=
  (c, [])

/-- Modelled from the spec: the behaviour §4.3 ascribes to
`writeResponseBody` — stream the chunk with the same buffer/backpressure
mechanism as `writeResponse`: place the chunk bytes in the write buffer,
store the ready callback as the write-completion callback, and arm a write,
without re-serializing headers. -/
def writeResponseBodySpec (c : Conn) (chunk : List Nat) : Conn × List Call :=
  ({ c with buf := ⟨chunk, 0⟩, onWriteCb := .readyCb }, awaitWriteCalls)

/-- Error kinds raised by the engine (RAISE of `kIllegalStateError`). -/
inductive HttpError where
  | illegalState
deriving DecidableEq, Repr

/-- Result of one invocation of `HTTPConnection::readRequestBody`: the raised
error if any, the `(chunk bytes, last_chunk)` deliveries made to the supplied
callback, the connection state afterwards, and the primitive-call trace. -/
structure ReadBodyRes where
  err : Option HttpError
  delivered : List (List Nat × Bool)
  conn : Conn
  calls : List Call
deriving DecidableEq, Repr

/-- `HTTPConnection::readRequestBody(callback)` (httpconnection.cc:188-220):
install `read_body_chunk` as the read-completion callback, then run it once:
* parser state `S_METHOD`/`S_URI`/`S_VERSION`/`S_HEADER`: RAISE
  `kIllegalStateError` before touching the callback or the body buffer;
* `S_BODY`: deliver `(body_buf_, last_chunk = false)`, clear `body_buf_`,
  `awaitRead()`;
* `S_DONE`: deliver `(body_buf_, last_chunk = true)`, arm nothing further. -/
def readRequestBody (c : Conn) : ReadBodyRes :=
  let c1 : Conn := { c with onReadCb := .bodyStream }
  match c.parserState with
  | .s_method | .s_uri | .s_version | .s_header =>
      ⟨some .illegalState, [], c1, []⟩
  | .s_body =>
      ⟨none, [(c.bodyBuf, false)], { c1 with bodyBuf := [] },
        [.invokeBodyCb] ++ awaitReadCalls⟩
  | .s_done =>
      ⟨none, [(c.bodyBuf, true)], c1, [.invokeBodyCb]⟩

/-- Events on the connection's atomic reference count. -/
inductive RcEvent where
  | inc
  | dec
deriving DecidableEq, Repr

/-- Reference-count state: the counter value and how many times the object
has been deallocated. -/
structure RcState where
  count : Nat
  freeCount : Nat
deriving DecidableEq, Repr

/-- The constructor (httpconnection.cc:38-47) initialises `refcount_(1)`. -/
def rcInit : RcState := ⟨1, 0⟩

/-- One reference-count event:
`incRef` (httpconnection.cc:255-257) is `refcount_++`;
`decRef` (httpconnection.cc:259-269) is `refcount_.fetch_sub(1)`, and when the
value read was 1 (transition 1 → 0) it performs `delete this`. -/
def rcStep (s : RcState) (e : RcEvent) : RcState :=
  match e with
  | .inc => ⟨s.count + 1, s.freeCount⟩
  | .dec => if s.count = 1 then ⟨0, s.freeCount + 1⟩ else ⟨s.count - 1, s.freeCount⟩

/-- Run a trace of reference-count events from the constructor state. -/
def rcRun (tr : List RcEvent) : RcState := tr.foldl rcStep rcInit

/-- The object is live at each event of the trace: no `incRef`/`decRef` runs
on a deallocated object. -/
def liveB : RcState → List RcEvent → Bool
  | _, [] => true
  | s, e :: rest => decide (s.freeCount = 0) && liveB (rcStep s e) rest

/-- A complete lifetime: every event runs on the live object and at the end
the object has been deallocated. -/
def completeLifetime (tr : List RcEvent) : Prop :=
  liveB rcInit tr = true ∧ (rcRun tr).freeCount ≠ 0

/-- Number of `incRef` calls in a trace. -/
def countInc : List RcEvent → Nat
  | [] => 0
  | .inc :: rest => countInc rest + 1
  | .dec :: rest => countInc rest

/-- Number of `decRef` calls in a trace. -/
def countDec : List RcEvent → Nat
  | [] => 0
  | .inc :: rest => countDec rest
  | .dec :: rest => countDec rest + 1

/-- The reference-count event trace of the plainest successful
single-request, non-keep-alive lifetime, read off httpconnection.cc:
`start` constructs the object (`refcount_ = 1`) and calls `nextRequest`,
whose `awaitRead` does `incRef`; the scheduled `read` parses the full
request, `dispatchRequest` runs the handler, whose `writeResponse` calls
`awaitWrite` (`incRef`); `read` ends with its `decRef`; the scheduled `write`
completes the flush and invokes the ready callback, whose `finishResponse`
(no keep-alive) calls `close` (`decRef`); `write` ends with its `decRef`,
which frees the object. -/
def rcTrace0 : List RcEvent := [.inc, .inc, .dec, .dec, .dec]

end FnordHttp

namespace FnordMetric

/-- The `key_` union of `DocumentKey`: holds either the integer key or the
heap-allocated string key. -/
inductive KeyUnion where
  | intK (k : Nat)
  | strK (s : String)
deriving DecidableEq, Repr

/-- `DocumentKey` (documentkey.cc): an `is_string_` flag plus the key union. -/
structure DocumentKey where
  is_string : Bool
  key : KeyUnion
deriving DecidableEq, Repr

/-- `DocumentKey::DocumentKey(uint64_t key)` (documentkey.cc:18-20):
`is_string_ = false`, `key_.int_key = key`. -/
def DocumentKey.ofInt (k : Nat) : DocumentKey := ⟨false, .intK k⟩

/-- `DocumentKey::DocumentKey(const std::string& key)` (documentkey.cc:22-24):
`is_string_ = true`, `key_.string_key = new std::string(key)`. -/
def DocumentKey.ofString (s : String) : DocumentKey := ⟨true, .strK s⟩

/-- `DocumentKey::isIntKey()` (documentkey.cc:41-43): `!is_string_`. -/
def DocumentKey.isIntKey (d : DocumentKey) : Bool := !d.is_string

/-- `DocumentKey::isStringKey()` (documentkey.cc:45-47): `is_string_`. -/
def DocumentKey.isStringKey (d : DocumentKey) : Bool := d.is_string

/-- `DocumentKey::getIntKey()` (documentkey.cc:49-52): reads
`key_.int_key`.  Reading the union while the string member is active is
undefined in C++; the model returns 0 there (never relied upon). -/
def DocumentKey.getIntKey (d : DocumentKey) : Nat :=
  match d.key with
  | .intK k => k
  | .strK _ => 0

/-- `DocumentKey::getStringKey()` (documentkey.cc:54-57): reads
`key_.string_key` (modelled by its contents).  Reading the union while the
int member is active is undefined in C++; the model returns "" there. -/
def DocumentKey.getStringKey (d : DocumentKey) : String :=
  match d.key with
  | .strK s => s
  | .intK _ => ""

/-- `DocumentKey::DocumentKey(const DocumentKey& copy)` (documentkey.cc:26-33):
copy `is_string_`; if string, deep-copy `*copy.key_.string_key`, else copy
`key_.int_key`. -/
def DocumentKey.copy (c : DocumentKey) : DocumentKey :=
  if c.is_string then ⟨true, .strK c.getStringKey⟩ else ⟨false, .intK c.getIntKey⟩

end FnordMetric

open FnordHttp FnordMetric

/-- C9: a `DocumentKey` constructed from an integer `k` satisfies
`isIntKey = true`, `isStringKey = false`, `getIntKey = k`; one constructed
from a string `s` satisfies `isStringKey = true`, `isIntKey = false`,
`getStringKey = s`. -/
theorem C9_documentKey_roundtrip (k : Nat) (s : String) :
    (DocumentKey.ofInt k).isIntKey = true ∧
    (DocumentKey.ofInt k).isStringKey = false ∧
    (DocumentKey.ofInt k).getIntKey = k ∧
    (DocumentKey.ofString s).isStringKey = true ∧
    (DocumentKey.ofString s).isIntKey = false ∧
    (DocumentKey.ofString s).getStringKey = s :=
  ⟨rfl, rfl, rfl, rfl, rfl, rfl⟩

/-- C10: the copy constructor preserves the classification and the active key
value of a `DocumentKey`, and `isIntKey` is the negation of `isStringKey`. -/
theorem C10_documentKey_copy (d : DocumentKey) :
    d.copy.isIntKey = d.isIntKey ∧
    d.copy.isStringKey = d.isStringKey ∧
    (d.isIntKey = true → d.copy.getIntKey = d.getIntKey) ∧
    (d.isStringKey = true → d.copy.getStringKey = d.getStringKey) ∧
    d.isIntKey = !d.isStringKey := by
  obtain ⟨b, key⟩ := d
  cases b <;> cases key <;>
    simp [DocumentKey.copy, DocumentKey.isIntKey, DocumentKey.isStringKey,
      DocumentKey.getIntKey, DocumentKey.getStringKey]

/-- Witness for C10 at concrete keys: copying `DocumentKey(7)` preserves the
integer key and copying `DocumentKey("ab")` preserves the string key. -/
theorem C10_documentKey_copy_witness :
    (DocumentKey.ofInt 7).copy.getIntKey = (DocumentKey.ofInt 7).getIntKey ∧
    (DocumentKey.ofString "ab").copy.getStringKey =
      (DocumentKey.ofString "ab").getStringKey :=
  ⟨(C10_documentKey_copy (DocumentKey.ofInt 7)).2.2.1 rfl,
    (C10_documentKey_copy (DocumentKey.ofString "ab")).2.2.2.1 rfl⟩

/-- C4: `finishResponse()` calls `nextRequest()` (which re-arms a read and
does not close the transport) exactly when the completed request's keep-alive
flag is set, and otherwise calls `close()`, which closes the transport. -/
theorem C4_finishResponse_keepalive (c : Conn) :
    (finishResponse c = nextRequest c ↔ c.request.keepalive = true) ∧
    (finishResponse c = close c ↔ c.request.keepalive = false) ∧
    Call.awaitReadOp ∈ (nextRequest c).2 ∧
    Call.transportClose ∉ (nextRequest c).2 ∧
    Call.transportClose ∈ (close c).2 ∧
    Call.awaitReadOp ∉ (close c).2 := by
  obtain ⟨ps, ⟨ka⟩, buf, bb, rcb, wcb⟩ := c
  cases ka <;>
    simp [finishResponse, nextRequest, close, closeCalls, awaitReadCalls]

/-- C5: `read()` on a zero-byte read signals `eof()` to the parser, then
closes, without invoking the read-completion callback; on a transport error
or a parse error it also closes without invoking the callback. -/
theorem C5_read_failure_paths (parseRaises cbSet : Bool) (n : Nat) :
    read (.ok 0) parseRaises cbSet =
      [.transportRead, .parserEof, .logTrace, .transportClose, .decRefOp] ∧
    Call.invokeReadCb ∉ read (.ok 0) parseRaises cbSet ∧
    (Call.invokeReadCb ∉ read (.error ()) parseRaises cbSet ∧
      Call.transportClose ∈ read (.error ()) parseRaises cbSet) ∧
    (Call.invokeReadCb ∉ read (.ok (n + 1)) true cbSet ∧
      Call.transportClose ∈ read (.ok (n + 1)) true cbSet) := by
  simp [FnordHttp.read, closeCalls]

/-- C7: every invocation of `write()` performs exactly one `decRef` before
returning — on the transport-error path (inside `close()`), on the partial
path and on the full path — and it is the last primitive call performed. -/
theorem C7_write_one_decref (buf : WBuf) (tres : Except Unit Nat) (cbSet : Bool) :
    (write buf tres cbSet).calls.count Call.decRefOp = 1 ∧
    [Call.decRefOp] <:+ (write buf tres cbSet).calls := by
  rcases tres with _ | len
  · exact ⟨by simp [write, closeCalls],
      ⟨[.transportWriteAttempt (buf.data.length - buf.mark), .logDebug,
        .logTrace, .transportClose], rfl⟩⟩
  · by_cases h : buf.mark + len < buf.data.length
    · refine ⟨by simp [write, awaitWriteCalls, h], ?_⟩
      refine ⟨[.transportWriteAttempt (buf.data.length - buf.mark),
        .setMarkOp (buf.mark + len), .incRefOp, .awaitWriteOp], ?_⟩
      simp [write, awaitWriteCalls, h]
    · cases cbSet
      · refine ⟨by simp [write, h], ?_⟩
        refine ⟨[.transportWriteAttempt (buf.data.length - buf.mark),
          .clearBuf], ?_⟩
        simp [write, h]
      · refine ⟨by simp [write, h], ?_⟩
        refine ⟨[.transportWriteAttempt (buf.data.length - buf.mark),
          .clearBuf, .invokeWriteCb], ?_⟩
        simp [write, h]

/-- C8: `nextRequest()` resets the parser to its initial state, allocates a
fresh request, nulls the write-completion callback, installs the default
header-phase read-completion callback, and calls `awaitRead()`; the default
callback re-arms `awaitRead` exactly when the parser state is strictly before
`S_BODY`. -/
theorem C8_nextRequest_resets (c : Conn) :
    (nextRequest c).1 = ⟨ParserState.s_method, HTTPRequest.fresh, c.buf,
      c.bodyBuf, ReadCbKind.defaultHeader, WriteCbKind.noCb⟩ ∧
    (nextRequest c).2 =
      [Call.parserReset, Call.newRequest, Call.incRefOp, Call.awaitReadOp] ∧
    (∀ ps : ParserState,
      Call.awaitReadOp ∈ defaultReadCb ps ↔ ps.idx < ParserState.s_body.idx) := by
  refine ⟨rfl, rfl, ?_⟩
  intro ps
  cases ps <;> simp [defaultReadCb, awaitReadCalls, ParserState.idx]

/-- C3: the source's `writeResponseBody` is an empty stub — at a concrete
connection and chunk it changes nothing and performs no calls, and in
particular it differs from the spec-described buffer-then-flush behaviour
(`writeResponseBodySpec`). -/
theorem C3_writeResponseBody_is_stub :
    writeResponseBody
        ⟨.s_done, ⟨true⟩, ⟨[9, 9], 1⟩, [], .defaultHeader, .noCb⟩ [1, 2, 3] =
      (⟨.s_done, ⟨true⟩, ⟨[9, 9], 1⟩, [], .defaultHeader, .noCb⟩, []) ∧
    writeResponseBody
        ⟨.s_done, ⟨true⟩, ⟨[9, 9], 1⟩, [], .defaultHeader, .noCb⟩ [1, 2, 3] ≠
      writeResponseBodySpec
        ⟨.s_done, ⟨true⟩, ⟨[9, 9], 1⟩, [], .defaultHeader, .noCb⟩ [1, 2, 3] :=
  ⟨rfl, by decide⟩

/-- C6: `readRequestBody` in a parser state strictly before `S_BODY` raises
`kIllegalStateError`, delivers nothing to the chunk callback and leaves the
body buffer untouched; in `S_BODY` it delivers a non-final chunk, clears the
body buffer and re-arms a read; in `S_DONE` it delivers the final chunk. -/
theorem C6_readRequestBody_states (c : Conn) :
    (c.parserState.idx < ParserState.s_body.idx →
      readRequestBody c =
        ⟨some HttpError.illegalState, [],
          { c with onReadCb := ReadCbKind.bodyStream }, []⟩) ∧
    (c.parserState = ParserState.s_body →
      readRequestBody c =
        ⟨none, [(c.bodyBuf, false)],
          { c with onReadCb := ReadCbKind.bodyStream, bodyBuf := [] },
          [Call.invokeBodyCb, Call.incRefOp, Call.awaitReadOp]⟩) ∧
    (c.parserState = ParserState.s_done →
      readRequestBody c =
        ⟨none, [(c.bodyBuf, true)],
          { c with onReadCb := ReadCbKind.bodyStream },
          [Call.invokeBodyCb]⟩) := by
  obtain ⟨ps, rq, buf, bb, rcb, wcb⟩ := c
  cases ps <;>
    simp [readRequestBody, ParserState.idx, awaitReadCalls]

/-- Witness for C6 at concrete connections in states `S_HEADER`, `S_BODY` and
`S_DONE`. -/
theorem C6_readRequestBody_witness :
    readRequestBody ⟨.s_header, ⟨false⟩, ⟨[], 0⟩, [7, 8], .defaultHeader, .noCb⟩ =
      ⟨some .illegalState, [],
        ⟨.s_header, ⟨false⟩, ⟨[], 0⟩, [7, 8], .bodyStream, .noCb⟩, []⟩ ∧
    readRequestBody ⟨.s_body, ⟨false⟩, ⟨[], 0⟩, [7, 8], .defaultHeader, .noCb⟩ =
      ⟨none, [([7, 8], false)],
        ⟨.s_body, ⟨false⟩, ⟨[], 0⟩, [], .bodyStream, .noCb⟩,
        [.invokeBodyCb, .incRefOp, .awaitReadOp]⟩ ∧
    readRequestBody ⟨.s_done, ⟨false⟩, ⟨[], 0⟩, [7, 8], .defaultHeader, .noCb⟩ =
      ⟨none, [([7, 8], true)],
        ⟨.s_done, ⟨false⟩, ⟨[], 0⟩, [7, 8], .bodyStream, .noCb⟩,
        [.invokeBodyCb]⟩ :=
  ⟨(C6_readRequestBody_states _).1 (by decide),
    (C6_readRequestBody_states _).2.1 rfl,
    (C6_readRequestBody_states _).2.2 rfl⟩

/-- Along any complete segment of a live trace: the count decreases by one per
`decRef` and increases by one per `incRef`, the object is freed at most once,
it stays live with positive count until freed, and once freed the count is 0
and the trace has ended. -/
lemma rc_foldl_inv : ∀ (tr : List RcEvent) (s : RcState),
    liveB s tr = true → s.freeCount = 0 → 1 ≤ s.count →
    (tr.foldl rcStep s).count + countDec tr = s.count + countInc tr ∧
    ((tr.foldl rcStep s).freeCount = 0 ∧ 1 ≤ (tr.foldl rcStep s).count ∨
      (tr.foldl rcStep s).freeCount = 1 ∧ (tr.foldl rcStep s).count = 0) := by
  intro tr
  induction tr with
  | nil =>
      intro s _ h0 h1
      exact ⟨by simp [countDec, countInc], Or.inl ⟨h0, h1⟩⟩
  | cons e rest ih =>
      intro s hlive h0 h1
      rw [liveB, Bool.and_eq_true] at hlive
      obtain ⟨-, hrest⟩ := hlive
      cases e with
      | inc =>
          have hih := ih ⟨s.count + 1, s.freeCount⟩ (by simpa [rcStep] using hrest)
            h0 (by show 1 ≤ s.count + 1; omega)
          refine ⟨?_, ?_⟩
          · have h := hih.1
            simp only [countDec, countInc, List.foldl_cons, rcStep] at h ⊢
            omega
          · simpa [rcStep] using hih.2
      | dec =>
          by_cases hc : s.count = 1
          · have hstep : rcStep s .dec = ⟨0, s.freeCount + 1⟩ := by
              simp [rcStep, hc]
            have hrest' : rest = [] := by
              cases rest with
              | nil => rfl
              | cons e2 r2 =>
                  rw [hstep] at hrest
                  rw [liveB, Bool.and_eq_true] at hrest
                  have h2 := hrest.1
                  simp [h0] at h2
            subst hrest'
            refine ⟨?_, Or.inr ?_⟩
            · simp [countDec, countInc, hstep, hc]
            · simp [hstep, h0]
          · have hstep : rcStep s .dec = ⟨s.count - 1, s.freeCount⟩ := by
              simp [rcStep, hc]
            have hih := ih ⟨s.count - 1, s.freeCount⟩ (by simpa [hstep] using hrest)
              h0 (by show 1 ≤ s.count - 1; omega)
            refine ⟨?_, ?_⟩
            · have h := hih.1
              simp only [countDec, countInc, List.foldl_cons, hstep] at h ⊢
              omega
            · simpa [hstep] using hih.2

/-- Counterexample to C1 as stated: on the plain successful single-request
lifetime `rcTrace0` (constructed, one request read, one response written and
flushed, closed, freed) the object completes its lifetime and is deallocated,
yet the number of `incRef` calls (2) does not equal the number of `decRef`
calls (3): the extra decrement releases the initial reference count of 1 set
by the constructor, which no `incRef` call established. -/
theorem C1_inc_ne_dec_counterexample :
    completeLifetime rcTrace0 ∧ countInc rcTrace0 ≠ countDec rcTrace0 :=
  ⟨⟨by decide, by decide⟩, by decide⟩

/-- C1 amended: over any complete lifetime of the reference-counted
connection, the number of `decRef` calls exceeds the number of `incRef` calls
by exactly one (the extra decrement releases the initial reference count of 1
set by the constructor), the object is deallocated exactly once, the final
count is 0, and the only deallocating step is a `decRef` that brings the
count from 1 to 0. -/
theorem C1_refcount_lifetime (tr : List RcEvent) (h : completeLifetime tr) :
    countDec tr = countInc tr + 1 ∧
    (rcRun tr).freeCount = 1 ∧
    (rcRun tr).count = 0 ∧
    (∀ (s : RcState) (e : RcEvent), (rcStep s e).freeCount ≠ s.freeCount →
      e = RcEvent.dec ∧ s.count = 1 ∧ (rcStep s e).count = 0) := by
  obtain ⟨hlive, hfreed⟩ := h
  have hinv := rc_foldl_inv tr rcInit hlive rfl (by simp [rcInit])
  rw [show tr.foldl rcStep rcInit = rcRun tr from rfl] at hinv
  have hfc : (rcRun tr).freeCount = 1 ∧ (rcRun tr).count = 0 := by
    rcases hinv.2 with h' | h'
    · exact absurd h'.1 hfreed
    · exact h'
  refine ⟨?_, hfc.1, hfc.2, ?_⟩
  · have := hinv.1
    simp [rcInit, hfc.2] at this
    omega
  · intro s e hne
    cases e with
    | inc => simp [rcStep] at hne
    | dec =>
        by_cases hc : s.count = 1
        · exact ⟨rfl, hc, by simp [rcStep, hc]⟩
        · simp [rcStep, hc] at hne

/-- Witness for the amended C1 at the concrete lifetime `rcTrace0`:
3 `decRef` calls, 2 `incRef` calls, exactly one deallocation. -/
theorem C1_refcount_lifetime_witness :
    completeLifetime rcTrace0 ∧
    countDec rcTrace0 = countInc rcTrace0 + 1 ∧
    (rcRun rcTrace0).freeCount = 1 :=
  have h : completeLifetime rcTrace0 := ⟨by decide, by decide⟩
  ⟨h, (C1_refcount_lifetime rcTrace0 h).1, (C1_refcount_lifetime rcTrace0 h).2.1⟩

/-- A completed flush transmits chunks whose lengths are exactly the accepted
counts, whose concatenation is the unconsumed region of the buffer, and ends
with the completion flag set and the buffer cleared. -/
lemma flush_spec : ∀ (lens data : List Nat) (mark : Nat),
    okLens data.length mark lens = true →
    mark + lens.sum = data.length →
    lens ≠ [] →
    (flush ⟨data, mark⟩ lens).1.map List.length = lens ∧
    (flush ⟨data, mark⟩ lens).1.flatten = data.drop mark ∧
    (flush ⟨data, mark⟩ lens).2.1 = true ∧
    (flush ⟨data, mark⟩ lens).2.2 = ⟨[], 0⟩ := by
  intro lens
  induction lens with
  | nil => intro data mark _ _ hne; exact absurd rfl hne
  | cons len rest ih =>
      intro data mark hok hsum _
      rw [okLens, Bool.and_eq_true, Bool.and_eq_true] at hok
      obtain ⟨⟨hpos, hle⟩, hbr⟩ := hok
      rw [decide_eq_true_eq] at hpos
      rw [decide_eq_true_eq] at hle
      rw [List.sum_cons] at hsum
      by_cases hlt : mark + len < data.length
      · rw [if_pos hlt] at hbr
        have hrne : rest ≠ [] := by
          intro h
          subst h
          simp at hsum
          omega
        have hih := ih data (mark + len) hbr (by omega) hrne
        have hstep : flush ⟨data, mark⟩ (len :: rest) =
            (((data.drop mark).take len) :: (flush ⟨data, mark + len⟩ rest).1,
              (flush ⟨data, mark + len⟩ rest).2.1,
              (flush ⟨data, mark + len⟩ rest).2.2) := by
          simp [flush, write, hlt]
        have hlen : ((data.drop mark).take len).length = len := by
          simp only [List.length_take, List.length_drop]
          omega
        have hdrop : data.drop (mark + len) = (data.drop mark).drop len :=
          (List.drop_drop len mark data).symm
        refine ⟨?_, ?_, ?_, ?_⟩
        · rw [hstep]
          simp only [List.map_cons, hlen, hih.1]
        · rw [hstep]
          simp only [List.flatten_cons, hih.2.1, hdrop]
          exact List.take_append_drop len (data.drop mark)
        · rw [hstep]
          exact hih.2.2.1
        · rw [hstep]
          exact hih.2.2.2
      · rw [if_neg hlt] at hbr
        have hrest : rest = [] := by
          cases rest with
          | nil => rfl
          | cons a b => simp [List.isEmpty] at hbr
        subst hrest
        have hmark : mark + len = data.length := by omega
        have hstep : flush ⟨data, mark⟩ [len] =
            ([((data.drop mark).take len)], true, ⟨[], 0⟩) := by
          simp [flush, write, hlt]
        have hdlen : (data.drop mark).length = len := by
          simp only [List.length_drop]
          omega
        refine ⟨?_, ?_, ?_, ?_⟩
        · rw [hstep]
          simp only [List.map_cons, List.map_nil, List.length_take, hdlen]
          simp
        · rw [hstep]
          simp only [List.flatten, List.append_nil]
          exact List.take_of_length_le (le_of_eq hdlen)
        · rw [hstep]
        · rw [hstep]

/-- Along a valid flush the buffer mark never exceeds the buffer size. -/
lemma flushMarks_le : ∀ (lens data : List Nat) (mark : Nat),
    okLens data.length mark lens = true →
    mark ≤ data.length →
    ∀ m ∈ flushMarks ⟨data, mark⟩ lens, m ≤ data.length := by
  intro lens
  induction lens with
  | nil =>
      intro data mark _ hm m hmem
      simp [flushMarks] at hmem
      omega
  | cons len rest ih =>
      intro data mark hok hm m hmem
      rw [okLens, Bool.and_eq_true, Bool.and_eq_true] at hok
      obtain ⟨⟨-, hle⟩, hbr⟩ := hok
      rw [decide_eq_true_eq] at hle
      by_cases hlt : mark + len < data.length
      · rw [if_pos hlt] at hbr
        have hstep : flushMarks ⟨data, mark⟩ (len :: rest) =
            mark :: flushMarks ⟨data, mark + len⟩ rest := by
          simp [flushMarks, hlt]
        rw [hstep] at hmem
        rcases List.mem_cons.mp hmem with h | h
        · omega
        · exact ih data (mark + len) hbr (by omega) m h
      · have hstep : flushMarks ⟨data, mark⟩ (len :: rest) = [mark, 0] := by
          simp [flushMarks, hlt]
        rw [hstep] at hmem
        rcases List.mem_cons.mp hmem with h | h
        · omega
        · simp at h
          omega

/-- Across a completed flush the write-completion callback is invoked exactly
once (by the final full write) and `awaitWrite` is re-armed exactly once per
partial write. -/
lemma flushCalls_cb : ∀ (lens data : List Nat) (mark : Nat),
    okLens data.length mark lens = true →
    mark + lens.sum = data.length →
    lens ≠ [] →
    (flushCalls ⟨data, mark⟩ lens).count Call.invokeWriteCb = 1 ∧
    (flushCalls ⟨data, mark⟩ lens).count Call.awaitWriteOp = lens.length - 1 := by
  intro lens
  induction lens with
  | nil => intro data mark _ _ hne; exact absurd rfl hne
  | cons len rest ih =>
      intro data mark hok hsum _
      rw [okLens, Bool.and_eq_true, Bool.and_eq_true] at hok
      obtain ⟨⟨-, hle⟩, hbr⟩ := hok
      rw [decide_eq_true_eq] at hle
      rw [List.sum_cons] at hsum
      by_cases hlt : mark + len < data.length
      · rw [if_pos hlt] at hbr
        have hrne : rest ≠ [] := by
          intro h
          subst h
          simp at hsum
          omega
        have hih := ih data (mark + len) hbr (by omega) hrne
        have hstep : flushCalls ⟨data, mark⟩ (len :: rest) =
            [Call.transportWriteAttempt (data.length - mark),
              Call.setMarkOp (mark + len), Call.incRefOp, Call.awaitWriteOp,
              Call.decRefOp] ++ flushCalls ⟨data, mark + len⟩ rest := by
          simp [flushCalls, write, awaitWriteCalls, hlt]
        have hrlen : 1 ≤ rest.length := List.length_pos.mpr hrne
        rw [hstep, List.count_append, List.count_append] at *
        constructor
        · simp only [hih.1]
          simp
        · have h2 := hih.2
          simp only [List.length_cons]
          simp only [h2]
          have : ([Call.transportWriteAttempt (data.length - mark),
              Call.setMarkOp (mark + len), Call.incRefOp, Call.awaitWriteOp,
              Call.decRefOp].count Call.awaitWriteOp) = 1 := by simp
          rw [this]
          omega
      · rw [if_neg hlt] at hbr
        have hrest : rest = [] := by
          cases rest with
          | nil => rfl
          | cons a b => simp [List.isEmpty] at hbr
        subst hrest
        have hstep : flushCalls ⟨data, mark⟩ [len] =
            [Call.transportWriteAttempt (data.length - mark), Call.clearBuf,
              Call.invokeWriteCb, Call.decRefOp] := by
          simp [flushCalls, write, hlt]
        rw [hstep]
        constructor
        · simp
        · simp

/-- C2: flushing a write buffer through repeated `write()` calls: a partial
write advances the mark by exactly the accepted count, re-arms `awaitWrite`
and does not invoke the callback; a full write clears the buffer and invokes
the stored callback; over any valid accepted-length sequence that covers the
buffer, each scheduled write transmits exactly its accepted count, the
transmitted bytes concatenate to the buffer contents `[0, S)` exactly once,
the flush completes with the buffer cleared, the mark never exceeds the size,
the callback fires exactly once and `awaitWrite` is re-armed once per partial
write. -/
theorem C2_write_backpressure (data lens : List Nat)
    (hok : okLens data.length 0 lens = true)
    (hsum : lens.sum = data.length)
    (hne : lens ≠ []) :
    (∀ (buf : WBuf) (len : Nat), buf.mark + len < buf.data.length →
      (write buf (.ok len) true).buf = ⟨buf.data, buf.mark + len⟩ ∧
      Call.awaitWriteOp ∈ (write buf (.ok len) true).calls ∧
      Call.invokeWriteCb ∉ (write buf (.ok len) true).calls) ∧
    (∀ (buf : WBuf) (len : Nat), ¬ buf.mark + len < buf.data.length →
      (write buf (.ok len) true).buf = ⟨[], 0⟩ ∧
      Call.invokeWriteCb ∈ (write buf (.ok len) true).calls ∧
      Call.awaitWriteOp ∉ (write buf (.ok len) true).calls) ∧
    (flush ⟨data, 0⟩ lens).1.map List.length = lens ∧
    (flush ⟨data, 0⟩ lens).1.flatten = data ∧
    (flush ⟨data, 0⟩ lens).2.1 = true ∧
    (flush ⟨data, 0⟩ lens).2.2 = ⟨[], 0⟩ ∧
    (∀ m ∈ flushMarks ⟨data, 0⟩ lens, m ≤ data.length) ∧
    (flushCalls ⟨data, 0⟩ lens).count Call.invokeWriteCb = 1 ∧
    (flushCalls ⟨data, 0⟩ lens).count Call.awaitWriteOp = lens.length - 1 := by
  have hspec := flush_spec lens data 0 hok (by omega) hne
  have hcb := flushCalls_cb lens data 0 hok (by omega) hne
  refine ⟨?_, ?_, hspec.1, by simpa using hspec.2.1, hspec.2.2.1, hspec.2.2.2,
    flushMarks_le lens data 0 hok (Nat.zero_le _), hcb.1, hcb.2⟩
  · intro buf len h
    exact ⟨by simp [write, h], by simp [write, awaitWriteCalls, h],
      by simp [write, awaitWriteCalls, h]⟩
  · intro buf len h
    exact ⟨by simp [write, h], by simp [write, h], by simp [write, h]⟩

/-- The ten-byte body of the end-to-end scenario. -/
def tenBytes : List Nat := [0, 1, 2, 3, 4, 5, 6, 7, 8, 9]

/-- Witness for C2: a 10-byte buffer flushed through a transport accepting 4
bytes per call (accepted counts 4, 4, 2) completes in exactly three writes of
4, 4 and 2 bytes whose concatenation is the buffer, with the ready callback
invoked exactly once and `awaitWrite` re-armed twice. -/
theorem C2_write_backpressure_witness :
    okLens tenBytes.length 0 [4, 4, 2] = true ∧
    ([4, 4, 2] : List Nat).sum = tenBytes.length ∧
    (flush ⟨tenBytes, 0⟩ [4, 4, 2]).1.map List.length = [4, 4, 2] ∧
    (flush ⟨tenBytes, 0⟩ [4, 4, 2]).1.flatten = tenBytes ∧
    (flush ⟨tenBytes, 0⟩ [4, 4, 2]).2.1 = true ∧
    (flushCalls ⟨tenBytes, 0⟩ [4, 4, 2]).count Call.invokeWriteCb = 1 ∧
    (flushCalls ⟨tenBytes, 0⟩ [4, 4, 2]).count Call.awaitWriteOp = 2 :=
  have h := C2_write_backpressure tenBytes [4, 4, 2] (by decide) (by decide)
    (by decide)
  ⟨by decide, by decide, h.2.2.1, h.2.2.2.1, h.2.2.2.2.1, h.2.2.2.2.2.2.2.1,
    h.2.2.2.2.2.2.2.2⟩
